import Mathlib

/-!
Verification of the virtual-filesystem layer of the electron-bolt repository.

The development shallowly embeds:
* the JS `Map` / plain-object state of `FilesStore` (src/app/lib/stores/files.ts)
  as association lists with insertion-order semantics,
* the pure path utilities (`pathUtils` in the OPFS service sources),
* the OPFS backend adapter (`OPFSService`) over a tree of handles,
* the `syncOPFS` synchronizer tick over a sandbox file map,
and proves the frozen claims about them.
-/

namespace Spec2Proof

/-- Lookup in an association list keyed by strings.  This models reading a
property of a JS plain object or `Map.get`: the first (and, for maps built by
`aset`, only) binding of the key wins. -/
def alookup {α : Type} : List (String × α) → String → Option α
  | [], _ => none
  | (k, v) :: rest, q => if k = q then some v else alookup rest q

/-- Insertion into an association list, replacing in place when the key is
present and appending otherwise.  This models `Map.set` and JS object property
assignment, both of which keep the original insertion position of an existing
key and append new keys at the end. -/
def aset {α : Type} : List (String × α) → String → α → List (String × α)
  | [], k, v => [(k, v)]
  | (k', v') :: rest, k, v =>
    if k' = k then (k, v) :: rest else (k', v') :: aset rest k v

/-- Removal from an association list.  Models `Map.delete` and
`map.setKey(key, undefined)` of nanostores, which deletes the key. -/
def aremove {α : Type} : List (String × α) → String → List (String × α)
  | [], _ => []
  | (k', v') :: rest, k =>
    if k' = k then aremove rest k else (k', v') :: aremove rest k

/-- Membership of a string in a JS `Set`, modelled as a list kept in insertion
order (`Set.has`). -/
def scontains (l : List String) (x : String) : Bool :=
  l.contains x

/-- Insertion into a JS `Set` modelled as an insertion-ordered list without
duplicates (`Set.add`): appends the element only when it is absent. -/
def sadd (l : List String) (x : String) : List String :=
  if l.contains x then l else l ++ [x]

/-- Worker for `collapseSlashes`: emit each character, suppressing a `/`
that immediately follows another `/`. -/
def collapseGo (prevSlash : Bool) : List Char → List Char
  | [] => []
  | c :: rest =>
    if c = '/' then
      if prevSlash then collapseGo true rest
      else '/' :: collapseGo true rest
    else c :: collapseGo false rest

/-- Collapse every run of `/` characters into a single `/` — the
`replace(/\/+/g, '/')` step of `pathUtils.normalize`. -/
def collapseSlashes (l : List Char) : List Char :=
  collapseGo false l

/-- Drop a single leading `/` — the `replace(/^\//, '')` step of
`pathUtils.normalize`. -/
def dropLeadSlash : List Char → List Char
  | '/' :: rest => rest
  | l => l

/-- Drop a single trailing `/` — the `replace(/\/$/, '')` step of
`pathUtils.normalize`. -/
def dropTrailSlash (l : List Char) : List Char :=
  if l.getLast? = some '/' then l.dropLast else l

/-- Embedding of `pathUtils.normalize`: collapse repeated separators, then
strip one leading and one trailing separator (after collapsing, at most one of
each remains). -/
def normalize (p : String) : String :=
  String.mk (dropTrailSlash (dropLeadSlash (collapseSlashes p.toList)))

/-- Split a character list at every occurrence of the separator `c`, keeping
empty components — the behaviour of JS `String.split` with a one-character
separator string. -/
def splitOnChar (c : Char) : List Char → List (List Char)
  | [] => [[]]
  | x :: xs =>
    if x = c then [] :: splitOnChar c xs
    else
      match splitOnChar c xs with
      | [] => [[x]]
      | s :: rest => (x :: s) :: rest

/-- Embedding of `pathUtils.split`: normalize, then split at `/`; the empty
(root) path yields no segments. -/
def psplit (p : String) : List String :=
  let n := normalize p
  if n = "" then [] else (splitOnChar '/' n.toList).map String.mk

/-- Embedding of `pathUtils.dirname`: everything before the last `/` of the
normalized path, or the empty string when it has no separator. -/
def pdirname (p : String) : String :=
  match (normalize p).toList.reverse.dropWhile (· ≠ '/') with
  | [] => ""
  | _ :: rest => String.mk rest.reverse

/-- Embedding of `pathUtils.basename`: everything after the last `/` of the
normalized path, or the whole normalized path when it has no separator. -/
def pbasename (p : String) : String :=
  String.mk ((normalize p).toList.reverse.takeWhile (· ≠ '/')).reverse

/-- Embedding of `pathUtils.isRoot`: a path is the root iff it normalizes to
the empty string. -/
def pisRoot (p : String) : Bool :=
  normalize p = ""

/-- JS `String.prototype.includes`: `pat` occurs somewhere inside `s` as a
contiguous substring. -/
def jsIncludes (s pat : String) : Bool :=
  decide (pat.toList <:+: s.toList)

/-- Embedding of `pathUtils.isValid`: the source is
`!path.includes('..')` — a plain substring test, not a segment test. -/
def isValid (p : String) : Bool :=
  !(jsIncludes p "..")

/-- Written from the claim's words, for comparison with `isValid`: `p`
contains a whole path segment equal to `..`, i.e. splitting `p` at `/` yields
the component `".."`. -/
def hasDotDotSegment (p : String) : Bool :=
  (splitOnChar '/' p.toList).contains ['.', '.']

/-- Check for a UTF-8 continuation byte in `0x80 – 0xBF`. -/
def isCont (b : Nat) : Bool :=
  decide (0x80 ≤ b ∧ b ≤ 0xBF)

/-- Decode one UTF-8 encoded scalar value from the head of a byte list.
Modelled from the WHATWG encoding specification implemented by the browser's
`TextDecoder` (continuation ranges restricted so that overlong forms,
surrogates and values above U+10FFFF are rejected).  Returns the scalar value
and the remaining bytes, or `none` at a malformed byte. -/
def utf8DecodeOne : List Nat → Option (Nat × List Nat)
  | [] => none
  | b0 :: r0 =>
    if b0 < 0x80 then some (b0, r0)
    else if 0xC2 ≤ b0 ∧ b0 ≤ 0xDF then
      match r0 with
      | b1 :: r1 =>
        if isCont b1 then some ((b0 - 0xC0) * 0x40 + (b1 - 0x80), r1) else none
      | [] => none
    else if 0xE0 ≤ b0 ∧ b0 ≤ 0xEF then
      match r0 with
      | b1 :: b2 :: r2 =>
        let lo1 := if b0 = 0xE0 then 0xA0 else 0x80
        let hi1 := if b0 = 0xED then 0x9F else 0xBF
        if (lo1 ≤ b1 ∧ b1 ≤ hi1) ∧ isCont b2 then
          some ((b0 - 0xE0) * 0x1000 + (b1 - 0x80) * 0x40 + (b2 - 0x80), r2)
        else none
      | _ => none
    else if 0xF0 ≤ b0 ∧ b0 ≤ 0xF4 then
      match r0 with
      | b1 :: b2 :: b3 :: r3 =>
        let lo1 := if b0 = 0xF0 then 0x90 else 0x80
        let hi1 := if b0 = 0xF4 then 0x8F else 0xBF
        if (lo1 ≤ b1 ∧ b1 ≤ hi1) ∧ isCont b2 ∧ isCont b3 then
          some ((b0 - 0xF0) * 0x40000 + (b1 - 0x80) * 0x1000 +
                (b2 - 0x80) * 0x40 + (b3 - 0x80), r3)
        else none
      | _ => none
    else none

/-- Strict UTF-8 decoding to scalar values — the behaviour of
`new TextDecoder('utf8', { fatal: true })`: any malformed byte fails the whole
decode.  Fuel-indexed; callers pass the byte count, which always suffices
because every step consumes at least one byte. -/
def utf8StrictGo : Nat → List Nat → Option (List Nat)
  | _, [] => some []
  | 0, _ :: _ => none
  | fuel + 1, b :: rest =>
    match utf8DecodeOne (b :: rest) with
    | none => none
    | some (c, r) =>
      match utf8StrictGo fuel r with
      | none => none
      | some cs => some (c :: cs)

/-- Strict UTF-8 decode of a whole byte list. -/
def utf8DecodeStrict? (bytes : List Nat) : Option (List Nat) :=
  utf8StrictGo bytes.length bytes

/-- Lossy UTF-8 decoding — the behaviour of `Blob.text()` and of
`TextDecoder` without `fatal`: a malformed position emits U+FFFD and decoding
continues.  The model advances one byte per malformed position (the exact
resynchronisation choice is irrelevant for valid input, on which it agrees
with the strict decoder). -/
def utf8ReplaceGo : Nat → List Nat → List Nat
  | _, [] => []
  | 0, _ :: _ => []
  | fuel + 1, b :: rest =>
    match utf8DecodeOne (b :: rest) with
    | none => 0xFFFD :: utf8ReplaceGo fuel rest
    | some (c, r) => c :: utf8ReplaceGo fuel r

/-- Lossy UTF-8 decode of a whole byte list. -/
def utf8DecodeReplace (bytes : List Nat) : List Nat :=
  utf8ReplaceGo bytes.length bytes

/-- Render decoded scalar values as a Lean string. -/
def codepointsToString (cs : List Nat) : String :=
  String.mk (cs.map Char.ofNat)

/-- The base64 alphabet used by `Buffer.toString('base64')`. -/
def base64Chars : List Char :=
  "ABCDEFGHIJKLMNOPQRSTUVWXYZabcdefghijklmnopqrstuvwxyz0123456789+/".toList

/-- Digit lookup into the base64 alphabet. -/
def base64Digit (n : Nat) : Char :=
  base64Chars.getD n 'A'

/-- Standard base64 with `=` padding, as produced by
`Buffer.from(bytes).toString('base64')`. -/
def base64Encode : List Nat → String
  | [] => ""
  | [b1] =>
    String.mk [base64Digit (b1 / 4), base64Digit (b1 % 4 * 16), '=', '=']
  | [b1, b2] =>
    String.mk [base64Digit (b1 / 4), base64Digit (b1 % 4 * 16 + b2 / 16),
               base64Digit (b2 % 16 * 4), '=']
  | b1 :: b2 :: b3 :: rest =>
    String.mk [base64Digit (b1 / 4), base64Digit (b1 % 4 * 16 + b2 / 16),
               base64Digit (b2 % 16 * 4 + b3 / 64), base64Digit (b3 % 64)] ++
      base64Encode rest

/-- Model of `path.dirname` from the Node-style posix implementation
(`path-browserify`) re-exported by `~/utils/path` and used by
`FilesStore.createFile`. -/
def nodeDirname (p : String) : String :=
  match p.toList with
  | [] => "."
  | c0 :: tail =>
    let hasRoot := c0 = '/'
    let r2 := (tail.reverse.dropWhile (· = '/')).dropWhile (· ≠ '/')
    if r2.isEmpty then (if hasRoot then "/" else ".")
    else if hasRoot ∧ r2.length = 1 then "//"
    else String.mk ((c0 :: tail).take r2.length)

/-- Mirror record: one entry of the in-memory project map (`File` / `Folder`
in files.ts). -/
inductive Dirent where
  | file (content : String) (isBinary : Bool)
  | folder
  deriving DecidableEq, Repr

/-- The mutable state of `FilesStore`: the path → Dirent map (`files`), the
file counter (`#size`), the modification ledger (`#modifiedFiles`), and the
durable deleted-path set (`#deletedPaths`, insertion-ordered). -/
structure FilesStore where
  files : List (String × Dirent)
  size : Int
  modifiedFiles : List (String × String)
  deletedPaths : List String
  deriving DecidableEq, Repr

/-- Result of a Mirror write operation: `ok` on success; `err` models a
rethrown exception, carrying the store as it stands when the exception
escapes. -/
inductive OpResult where
  | ok (s : FilesStore)
  | err (s : FilesStore)
  deriving DecidableEq, Repr

/-- The store carried by either result. -/
def OpResult.state : OpResult → FilesStore
  | .ok s => s
  | .err s => s

/-- Argument content of `createFile`: a string or a `Uint8Array`. -/
inductive FileContent where
  | text (s : String)
  | binary (bytes : List Nat)
  deriving DecidableEq, Repr

/-- One sampled chunk of `istextorbinary.getEncoding`: the chunk is binary
when its lossy UTF-8 decode contains a replacement character (65533) or a
control character at or below 8. -/
def chunkIsBinary (bs : List Nat) : Bool :=
  (utf8DecodeReplace bs).any fun c => c = 65533 || c ≤ 8

/-- Modelled from the behaviour of `istextorbinary.getEncoding(buffer,
{ chunkLength: 100 })` as used by `isBinaryFile` in files.ts: an undefined
buffer is not binary; otherwise 100-byte chunks at the start, middle and end
of the buffer are sampled, and the buffer is binary iff any sampled chunk
decodes with a replacement character or a control character at or below 8
(the library's boundary adjustment for split multi-byte sequences is not
modelled). -/
def isBinaryFile (buffer : Option (List Nat)) : Bool :=
  match buffer with
  | none => false
  | some bs =>
    chunkIsBinary (bs.take 100) ||
    chunkIsBinary ((bs.drop (bs.length / 2 - 100)).take 100) ||
    chunkIsBinary ((bs.drop (bs.length - 100)).take 100)

/-- Embedding of `FilesStore.#decodeFileContent`: missing or empty buffers
decode to `""`; otherwise strict UTF-8 decoding, with a decode failure caught
and turned into `""`. -/
def decodeFileContent (buffer : Option (List Nat)) : String :=
  match buffer with
  | none => ""
  | some bs =>
    if bs.length = 0 then ""
    else
      match utf8DecodeStrict? bs with
      | some cs => codepointsToString cs
      | none => ""

/-- Embedding of `FilesStore.saveFile`.  `backendOk` is the outcome of the
`fileSystem.writeFile` backend call; `false` models a backend failure whose
exception reaches the `catch`, which logs and rethrows.  When `getFile` finds
no file Dirent, `unreachable(...)` throws before the backend call. -/
def saveFile (backendOk : Bool) (s : FilesStore) (filePath content : String) :
    OpResult :=
  match alookup s.files filePath with
  | some (.file old _) =>
    if backendOk then
      .ok { s with
        modifiedFiles :=
          if (alookup s.modifiedFiles filePath).isSome then s.modifiedFiles
          else aset s.modifiedFiles filePath old,
        files := aset s.files filePath (.file content false) }
    else .err s
  | _ => .err s

/-- Embedding of `FilesStore.createFile`.  `mkdirOk` and `writeOk` are the
outcomes of the two backend calls; `mkdir` is only issued when the Node-style
dirname of the path is not `"."`.  A backend failure rethrows with no state
change.  For binary content the stored Dirent keeps the base64 encoding of
the bytes; for text content the backend write sends the single-space sentinel
in place of the empty string, while the in-memory Dirent keeps the original
text. -/
def createFile (mkdirOk writeOk : Bool) (s : FilesStore) (filePath : String)
    (content : FileContent) : OpResult :=
  if nodeDirname filePath ≠ "." ∧ ¬mkdirOk then .err s
  else
    match content with
    | .binary bytes =>
      if writeOk then
        .ok { s with
          files := aset s.files filePath (.file (base64Encode bytes) true),
          modifiedFiles := aset s.modifiedFiles filePath (base64Encode bytes) }
      else .err s
    | .text t =>
      if writeOk then
        .ok { s with
          files := aset s.files filePath (.file t false),
          modifiedFiles := aset s.modifiedFiles filePath t }
      else .err s

/-- Embedding of `FilesStore.createFolder`. -/
def createFolder (backendOk : Bool) (s : FilesStore) (folderPath : String) :
    OpResult :=
  if backendOk then .ok { s with files := aset s.files folderPath .folder }
  else .err s

/-- Embedding of `FilesStore.deleteFile`: after the backend `rm` succeeds the
path is tombstoned, the Dirent cleared, the counter decremented and the
ledger entry (if any) dropped. -/
def deleteFile (backendOk : Bool) (s : FilesStore) (filePath : String) :
    OpResult :=
  if backendOk then
    .ok { s with
      deletedPaths := sadd s.deletedPaths filePath,
      files := aremove s.files filePath,
      size := s.size - 1,
      modifiedFiles := aremove s.modifiedFiles filePath }
  else .err s

/-- One snapshot entry of the `deleteFolder` descendant loop. -/
def deleteFolderStep (folderPath : String) (acc : FilesStore)
    (entry : String × Dirent) : FilesStore :=
  if entry.1.startsWith (folderPath ++ "/") then
    { acc with
      files := aremove acc.files entry.1,
      deletedPaths := sadd acc.deletedPaths entry.1,
      size := match entry.2 with | .file _ _ => acc.size - 1 | .folder => acc.size,
      modifiedFiles :=
        match entry.2 with
        | .file _ _ => aremove acc.modifiedFiles entry.1
        | .folder => acc.modifiedFiles }
  else acc

/-- Embedding of `FilesStore.deleteFolder`: after the backend `rm` succeeds,
the folder key is tombstoned and cleared, then — iterating over a snapshot of
the map taken after that removal — every entry under `folderPath + "/"` is
cleared, tombstoned and accounted out of the counter and ledger. -/
def deleteFolder (backendOk : Bool) (s : FilesStore) (folderPath : String) :
    OpResult :=
  if backendOk then
    let s1 := { s with
      deletedPaths := sadd s.deletedPaths folderPath,
      files := aremove s.files folderPath }
    .ok (s1.files.foldl (deleteFolderStep folderPath) s1)
  else .err s

/-- Embedding of `FilesStore.getModifiedFiles`: walk the ledger in insertion
order, keep entries whose current Dirent is a file with content differing
from the recorded baseline; return `none` (JS `undefined`) when nothing
qualifies. -/
def getModifiedFiles (s : FilesStore) : Option (List (String × Dirent)) :=
  let l := s.modifiedFiles.filterMap fun e =>
    match alookup s.files e.1 with
    | some (.file c b) => if c = e.2 then none else some (e.1, Dirent.file c b)
    | _ => none
  if l.isEmpty then none else some l

/-- Embedding of `FilesStore.resetFileModifications`. -/
def resetFileModifications (s : FilesStore) : FilesStore :=
  { s with modifiedFiles := [] }

/-- Body of the `#cleanupDeletedFiles` inner loop for one snapshot entry:
when the entry lies under the tombstone `d`, clear it and account it out of
the counter and ledger (for files). -/
def cleanupInnerStep (d : String) (a : FilesStore) (e : String × Dirent) :
    FilesStore :=
  if e.1.startsWith (d ++ "/") then
    { a with
      files := aremove a.files e.1,
      size := match e.2 with | .file _ _ => a.size - 1 | .folder => a.size,
      modifiedFiles :=
        match e.2 with
        | .file _ _ => aremove a.modifiedFiles e.1
        | .folder => a.modifiedFiles }
  else a

/-- Inner loop of `#cleanupDeletedFiles`: clear every snapshot entry nested
under the tombstone `d`. -/
def cleanupInner (d : String) (snapshot : List (String × Dirent))
    (acc : FilesStore) : FilesStore :=
  snapshot.foldl (cleanupInnerStep d) acc

/-- One tombstone iteration of `#cleanupDeletedFiles`: clear the tombstoned
entry itself when the snapshot holds it (adjusting the counter for a file),
then run the descendant loop over the snapshot. -/
def cleanupStep (snapshot : List (String × Dirent)) (acc : FilesStore)
    (d : String) : FilesStore :=
  let acc1 :=
    match alookup snapshot d with
    | some de =>
      { acc with
        files := aremove acc.files d,
        size := match de with | .file _ _ => acc.size - 1 | .folder => acc.size }
    | none => acc
  cleanupInner d snapshot acc1

/-- Embedding of `FilesStore.#cleanupDeletedFiles` — the cleanup pass run at
Mirror construction: iterate over the deleted-path set; for each tombstone,
clear the entry itself (adjusting the counter when the snapshot shows a file)
and every snapshot entry nested under it.  The snapshot (`currentFiles`) is
taken once, before the loop. -/
def cleanupDeletedFiles (s : FilesStore) : FilesStore :=
  if s.deletedPaths.isEmpty then s
  else s.deletedPaths.foldl (cleanupStep s.files) s

/-- Watch event types delivered to `#processEventBuffer`. -/
inductive WatchEventType where
  | add_dir | remove_dir | add_file | change | remove_file | update_directory
  deriving DecidableEq, Repr

/-- One backend watch event (`PathWatcherEvent`). -/
structure WatchEvent where
  type : WatchEventType
  path : String
  buffer : Option (List Nat)
  deriving DecidableEq, Repr

/-- The active backend kind (`FileSystemType` in `~/utils/constants`). -/
inductive FileSystemType where
  | WEB_CONTAINER | OPFS
  deriving DecidableEq, Repr

/-- The `eventPath.replace(/\/+$/g, '')` sanitisation: strip all trailing
slashes. -/
def sanitizePath (p : String) : String :=
  String.mk ((p.toList.reverse.dropWhile (· = '/')).reverse)

/-- Own enumerable property keys of a nanostores `map` store object.  The
`remove_dir` branch of `#processEventBuffer` iterates
`Object.entries(this.files)` — the store object itself, not the file map
`this.files.get()` — so these method/bookkeeping names are what that loop
actually sees.  None of them contains a `/`. -/
def storeOwnProps : List String :=
  ["get", "lc", "listen", "notify", "off", "set", "setKey", "subscribe", "value"]

/-- Embedding of one iteration of `FilesStore.#processEventBuffer`.  Events
with an empty path are skipped; events whose sanitised path equals, or lies
under, a tombstoned path are discarded.  In the `remove_dir` branch the
descendant loop ranges over `storeOwnProps` (see there).  In the OPFS
`change`-without-buffer case the content refresh is deferred to an
asynchronous load, so the batch makes no synchronous map update. -/
def processOne (fsType : FileSystemType) (s : FilesStore) (e : WatchEvent) :
    FilesStore :=
  if e.path = "" then s
  else
    let sanitized := sanitizePath e.path
    if scontains s.deletedPaths sanitized then s
    else if s.deletedPaths.any (fun d => sanitized.startsWith (d ++ "/")) then s
    else
      match e.type with
      | .add_dir => { s with files := aset s.files sanitized .folder }
      | .remove_dir =>
        let m1 := aremove s.files sanitized
        let m2 := storeOwnProps.foldl
          (fun m prop => if prop.startsWith sanitized then aremove m prop else m) m1
        { s with files := m2 }
      | .add_file | .change =>
        let sizeNew := if e.type = .add_file then s.size + 1 else s.size
        let isBin := isBinaryFile e.buffer
        let content0 :=
          if isBin ∧ e.buffer.isSome then base64Encode (e.buffer.getD [])
          else if ¬isBin then
            let c := decodeFileContent e.buffer
            if c = " " ∧ e.type = .add_file then "" else c
          else ""
        let content1 :=
          match alookup s.files sanitized with
          | some (.file ec true) => if ec ≠ "" ∧ content0 = "" then ec else content0
          | _ => content0
        if fsType = .OPFS ∧ e.buffer = none ∧ e.type = .change then
          { s with size := sizeNew }
        else
          { s with size := sizeNew,
                   files := aset s.files sanitized (.file content1 isBin) }
      | .remove_file =>
        { s with size := s.size - 1, files := aremove s.files sanitized }
      | .update_directory => s

/-- Embedding of `FilesStore.#processEventBuffer` over a flattened batch. -/
def processEventBuffer (fsType : FileSystemType) (s : FilesStore)
    (events : List WatchEvent) : FilesStore :=
  events.foldl (processOne fsType) s

/-- Number of file-typed Dirents in a file map. -/
def countFiles (l : List (String × Dirent)) : Nat :=
  (l.filter fun e => match e.2 with | .file _ _ => true | .folder => false).length

/-- Error codes of the `FileSystemError` taxonomy
(src/app/lib/filesystem/errors/FileSystemError.ts). -/
inductive ErrCode where
  | NOT_FOUND | PERMISSION_DENIED | ALREADY_EXISTS | DIRECTORY_NOT_EMPTY
  | INVALID_PATH | QUOTA_EXCEEDED | NOT_INITIALIZED | FILESYSTEM_ERROR
  | ENVIRONMENT_ERROR
  deriving DecidableEq, Repr

/-- A thrown `FileSystemError`; the message text is not modelled. -/
structure FsError where
  code : ErrCode
  path : Option String
  deriving DecidableEq, Repr

/-- DOMException names thrown by the OPFS platform APIs (modelled from the
File System API specification). -/
inductive DomError where
  | NotFoundError | NotAllowedError | QuotaExceededError | TypeError
  | InvalidModificationError | TypeMismatchError
  deriving DecidableEq, Repr

/-- Embedding of `opfsUtils.handleFileSystemError` applied to a platform
error: the DOMException name is switched on, with `NotFoundError`,
`NotAllowedError`, `QuotaExceededError` and `TypeError` mapped to their
taxonomy codes and anything else — including `InvalidModificationError` —
falling to the `FILESYSTEM_ERROR` catch-all.  (A `FileSystemError` reaching
the handler is rethrown unchanged; callers below encode that directly.) -/
def handleDomError (e : DomError) (path : String) : FsError :=
  match e with
  | .NotFoundError => ⟨.NOT_FOUND, some path⟩
  | .NotAllowedError => ⟨.PERMISSION_DENIED, some path⟩
  | .QuotaExceededError => ⟨.QUOTA_EXCEEDED, some path⟩
  | .TypeError => ⟨.INVALID_PATH, some path⟩
  | _ => ⟨.FILESYSTEM_ERROR, some path⟩

/-- A node of the OPFS handle tree. -/
inductive ONode where
  | file (data : List Nat)
  | dir (entries : List (String × ONode))

/-- Walk directory segments from a node, as chained
`getDirectoryHandle(segment)` calls do without `create`: a missing name
raises `NotFoundError`; a file bound to the name raises
`TypeMismatchError`. -/
def resolveDir : ONode → List String → Except DomError ONode
  | node, [] => .ok node
  | .file _, _ :: _ => .error .TypeMismatchError
  | .dir es, seg :: rest =>
    match alookup es seg with
    | none => .error .NotFoundError
    | some (.file _) => .error .TypeMismatchError
    | some (.dir es') => resolveDir (.dir es') rest

/-- Embedding of `opfsUtils.getDirectoryHandle` (without `create`): the root
path resolves to the root handle; otherwise the split segments are walked,
with `NotFoundError` translated to `NOT_FOUND` at this path and any other
platform failure to the `FILESYSTEM_ERROR` catch-all. -/
def getDirectoryHandle (root : ONode) (path : String) : Except FsError ONode :=
  if pisRoot path then .ok root
  else
    match resolveDir root (psplit path) with
    | .ok node => .ok node
    | .error .NotFoundError => .error ⟨.NOT_FOUND, some path⟩
    | .error _ => .error ⟨.FILESYSTEM_ERROR, some path⟩

/-- Embedding of `opfsUtils.getFileHandle` (without `create`): an empty
segment list is an invalid path; the parent segments are walked as
directories; the final name must resolve to a file, with `NotFoundError`
translated to `NOT_FOUND` at this path and other platform failures to
`FILESYSTEM_ERROR`. -/
def getFileHandle (root : ONode) (path : String) : Except FsError (List Nat) :=
  let segs := psplit path
  if segs.isEmpty then .error ⟨.INVALID_PATH, some path⟩
  else
    match resolveDir root segs.dropLast with
    | .error .NotFoundError => .error ⟨.NOT_FOUND, some path⟩
    | .error _ => .error ⟨.FILESYSTEM_ERROR, some path⟩
    | .ok (.file _) => .error ⟨.FILESYSTEM_ERROR, some path⟩
    | .ok (.dir es) =>
      match alookup es (segs.getLastD "") with
      | none => .error ⟨.NOT_FOUND, some path⟩
      | some (.dir _) => .error ⟨.FILESYSTEM_ERROR, some path⟩
      | some (.file d) => .ok d

/-- Result of `OPFSService.readFile`: decoded text or raw bytes. -/
inductive ReadResult where
  | text (s : String)
  | bytes (bs : List Nat)
  deriving DecidableEq, Repr

/-- Embedding of `OPFSService.readFile`: binary mode returns the raw bytes
(`readFileBinary`); text mode returns `file.text()` — the lossy
replacement-character UTF-8 decode (`readFileContent`). -/
def OPFSService.readFile (root : ONode) (path : String) (binary : Bool) :
    Except FsError ReadResult :=
  match getFileHandle root path with
  | .error e => .error e
  | .ok data =>
    if binary then .ok (.bytes data)
    else .ok (.text (codepointsToString (utf8DecodeReplace data)))

/-- Platform `removeEntry` on one directory's entry list: a missing name
raises `NotFoundError`; a non-empty directory without `recursive` raises
`InvalidModificationError` and removes nothing; otherwise the entry is
removed. -/
def removeEntry (es : List (String × ONode)) (name : String) (recursive : Bool) :
    Except DomError (List (String × ONode)) :=
  match alookup es name with
  | none => .error .NotFoundError
  | some (.file _) => .ok (aremove es name)
  | some (.dir child) =>
    if child.isEmpty ∨ recursive then .ok (aremove es name)
    else .error .InvalidModificationError

/-- Apply `removeEntry name` under the directory reached by walking
`parentSegs`, rebuilding the surrounding tree (the mutation `removeEntry`
performs through the resolved parent handle). -/
def removeAt : ONode → List String → String → Bool → Except DomError ONode
  | .dir es, [], name, recursive =>
    match removeEntry es name recursive with
    | .ok es' => .ok (.dir es')
    | .error e => .error e
  | .file _, _, _, _ => .error .TypeMismatchError
  | .dir es, seg :: rest, name, recursive =>
    match alookup es seg with
    | none => .error .NotFoundError
    | some (.file _) => .error .TypeMismatchError
    | some (.dir es') =>
      match removeAt (.dir es') rest name recursive with
      | .ok sub => .ok (.dir (aset es seg sub))
      | .error e => .error e

/-- Embedding of `OPFSService.deleteDirectory`: the root path is rejected
with a `PERMISSION_DENIED` `FileSystemError` (rethrown unchanged by the
handler); otherwise the parent directory is resolved (errors reported at the
parent path) and `removeEntry(basename, { recursive })` is issued, its
platform errors mapped by `handleFileSystemError` at the full path. -/
def OPFSService.deleteDirectory (root : ONode) (path : String)
    (recursive : Bool) : Except FsError ONode :=
  if pisRoot path then .error ⟨.PERMISSION_DENIED, some path⟩
  else
    match getDirectoryHandle root (pdirname path) with
    | .error e => .error e
    | .ok _ =>
      match removeAt root (psplit (pdirname path)) (pbasename path) recursive with
      | .ok newRoot => .ok newRoot
      | .error e => .error (handleDomError e path)

/-- The taxonomy code of a failed backend call, `none` on success. -/
def errCodeOf {α : Type} : Except FsError α → Option ErrCode
  | .error e => some e.code
  | .ok _ => none

/-- Entry type of a `FileInfo` listing row. -/
inductive EntryType where
  | file | directory
  deriving DecidableEq, Repr

/-- One row of `readDirectory('/', { recursive: true })` (only the fields
the synchronizer consumes). -/
structure FileInfo where
  path : String
  type : EntryType
  deriving DecidableEq, Repr

/-- A node of the sandbox (WebContainer) file tree. -/
inductive SNode where
  | dir
  | file (content : String)
  deriving DecidableEq, Repr

/-- Canonical segment decomposition used for sandbox path resolution: split
at `/` and drop empty components. -/
def canonSegs (p : String) : List String :=
  ((splitOnChar '/' p.toList).map String.mk).filter (· ≠ "")

/-- Canonical map key of a segment list (segments are slash-free and
non-empty, so this is injective on canonical paths). -/
def segsKey (segs : List String) : String :=
  String.intercalate "/" segs

/-- Non-empty ancestor chains of a segment list, shortest first — the
directories `mkdir -p` materialises. -/
def ancestors (segs : List String) : List (List String) :=
  (List.range segs.length).map fun i => segs.take (i + 1)

/-- Node-style `mkdir` with `recursive: true` on the sandbox tree: create
each missing ancestor directory in order, leave existing directories alone,
fail when a file occupies an ancestor path. -/
def mkdirRecGo (S : List (String × SNode)) :
    List (List String) → Except Unit (List (String × SNode))
  | [] => .ok S
  | q :: rest =>
    match alookup S (segsKey q) with
    | some .dir => mkdirRecGo S rest
    | some (.file _) => .error ()
    | none => mkdirRecGo (aset S (segsKey q) .dir) rest

/-- `webcontainer.fs.mkdir(path, { recursive: true })`. -/
def mkdirRec (S : List (String × SNode)) (segs : List String) :
    Except Unit (List (String × SNode)) :=
  mkdirRecGo S (ancestors segs)

/-- `webcontainer.fs.writeFile`: fails when the target is a directory or a
non-root parent directory is missing; otherwise sets the file content,
overwriting any previous file. -/
def sandboxWrite (S : List (String × SNode)) (segs : List String)
    (content : String) : Except Unit (List (String × SNode)) :=
  if segs.dropLast ≠ [] ∧ alookup S (segsKey segs.dropLast) ≠ some SNode.dir then
    .error ()
  else
    match alookup S (segsKey segs) with
    | some .dir => .error ()
    | _ => .ok (aset S (segsKey segs) (.file content))

/-- One primitive sandbox operation issued by a synchronizer tick. -/
inductive SyncAct where
  | mkdir (segs : List String)
  | write (segs : List String) (content : String)
  deriving DecidableEq, Repr

/-- Run one sandbox operation. -/
def runAct (S : List (String × SNode)) : SyncAct → Except Unit (List (String × SNode))
  | .mkdir segs => mkdirRec S segs
  | .write segs c => sandboxWrite S segs c

/-- Run a sequence of sandbox operations, stopping at the first failure (an
awaited rejection aborts the tick). -/
def runActs (S : List (String × SNode)) : List SyncAct → Except Unit (List (String × SNode))
  | [] => .ok S
  | a :: acts =>
    match runAct S a with
    | .ok S' => runActs S' acts
    | .error e => .error e

/-- Name of the sandbox working directory.  Modelled from the repo's
`WORK_DIR_NAME` constant (`~/utils/constants`); its value is immaterial to
the proofs. -/
def WORK_DIR_NAME : String := "project"

/-- Sandbox target of a listed entry: `path.join(WORK_DIR_NAME, entry.path)`
as resolved by the sandbox fs, modelled canonically as segment
concatenation. -/
def targetSegs (p : String) : List String :=
  canonSegs WORK_DIR_NAME ++ canonSegs p

/-- Boolean test for directory rows. -/
def FileInfo.isDir (f : FileInfo) : Bool :=
  match f.type with
  | .directory => true
  | .file => false

/-- The operations one `syncOPFS` tick issues, in order: every listed
directory is created first; then for every listed file, its parent directory
is created (`path.dirname` of the joined target, i.e. the target minus its
last segment) and its content is written across.  `readF` abstracts
`fileSystem.readFile` over the fixed persistent tree: deterministic content
per listed source path. -/
def syncActions (listing : List FileInfo) (readF : String → String) :
    List SyncAct :=
  (listing.filter (fun f => f.isDir)).map
      (fun d => SyncAct.mkdir (targetSegs d.path)) ++
    (listing.filter (fun f => !f.isDir)).foldr
      (fun f acc =>
        SyncAct.mkdir ((targetSegs f.path).dropLast) ::
          SyncAct.write (targetSegs f.path) (readF f.path) :: acc)
      []

/-- Embedding of one `syncOPFS` tick against a fixed persistent listing. -/
def syncOPFS (listing : List FileInfo) (readF : String → String)
    (S : List (String × SNode)) : Except Unit (List (String × SNode)) :=
  runActs S (syncActions listing readF)

/-- Write targets (canonical keys) of a list of sync operations. -/
def writeKeys (acts : List SyncAct) : List String :=
  acts.filterMap fun a =>
    match a with
    | .write segs _ => some (segsKey segs)
    | .mkdir _ => none

theorem alookup_aset_self {α : Type} (l : List (String × α)) (k : String) (v : α) :
    alookup (aset l k v) k = some v := by
  induction l with
  | nil => simp [aset, alookup]
  | cons hd tl ih =>
    obtain ⟨k', v'⟩ := hd
    by_cases h : k' = k
    · simp [aset, h, alookup]
    · simp [aset, h, alookup, ih]

theorem alookup_aset_ne {α : Type} (l : List (String × α)) (k q : String) (v : α)
    (h : k ≠ q) : alookup (aset l k v) q = alookup l q := by
  induction l with
  | nil => simp [aset, alookup, h]
  | cons hd tl ih =>
    obtain ⟨k', v'⟩ := hd
    by_cases hk : k' = k
    · subst hk
      simp [aset, alookup, h]
    · simp [aset, hk, alookup, ih]

theorem alookup_aremove_self {α : Type} (l : List (String × α)) (k : String) :
    alookup (aremove l k) k = none := by
  induction l with
  | nil => simp [aremove, alookup]
  | cons hd tl ih =>
    obtain ⟨k', v'⟩ := hd
    by_cases h : k' = k
    · simp [aremove, h, ih]
    · simp [aremove, h, alookup, ih]

theorem alookup_aremove_ne {α : Type} (l : List (String × α)) (k q : String)
    (h : k ≠ q) : alookup (aremove l k) q = alookup l q := by
  induction l with
  | nil => simp [aremove]
  | cons hd tl ih =>
    obtain ⟨k', v'⟩ := hd
    by_cases hk : k' = k
    · subst hk
      simp [aremove, alookup, h, ih]
    · simp [aremove, hk, alookup, ih]

theorem aset_of_lookup_eq {α : Type} (l : List (String × α)) (k : String) (v : α)
    (h : alookup l k = some v) : aset l k v = l := by
  induction l with
  | nil => simp [alookup] at h
  | cons hd tl ih =>
    obtain ⟨k', v'⟩ := hd
    by_cases hk : k' = k
    · subst hk
      simp [alookup] at h
      simp [aset, h]
    · simp [alookup, hk] at h
      simp [aset, hk, ih h]

theorem aset_aset {α : Type} (l : List (String × α)) (k : String) (v₁ v₂ : α) :
    aset (aset l k v₁) k v₂ = aset l k v₂ := by
  induction l with
  | nil => simp [aset]
  | cons hd tl ih =>
    obtain ⟨k', v'⟩ := hd
    by_cases hk : k' = k
    · simp [aset, hk]
    · simp [aset, hk, ih]

theorem splitOnChar_ne_nil (c : Char) (l : List Char) : splitOnChar c l ≠ [] := by
  cases l with
  | nil => simp [splitOnChar]
  | cons x xs =>
    by_cases h : x = c
    · simp [splitOnChar, h]
    · simp only [splitOnChar, h, if_false]
      cases splitOnChar c xs <;> simp

theorem splitOnChar_head_pre (c : Char) (l : List Char) :
    ∃ s rest, splitOnChar c l = s :: rest ∧ s <+: l := by
  induction l with
  | nil => exact ⟨[], [], rfl, List.nil_prefix⟩
  | cons x xs ih =>
    by_cases h : x = c
    · exact ⟨[], splitOnChar c xs, by simp [splitOnChar, h], List.nil_prefix⟩
    · obtain ⟨s, rest, hs, hpre⟩ := ih
      refine ⟨x :: s, rest, ?_, ?_⟩
      · simp [splitOnChar, h, hs]
      · exact (List.prefix_cons_inj x).mpr hpre

theorem mem_splitOnChar_infix (c : Char) (l seg : List Char)
    (h : seg ∈ splitOnChar c l) : seg <:+: l := by
  induction l with
  | nil =>
    simp [splitOnChar] at h
    simp [h]
  | cons x xs ih =>
    by_cases hx : x = c
    · simp [splitOnChar, hx] at h
      rcases h with h | h
      · simp [h]
      · exact List.infix_cons (ih h)
    · obtain ⟨s, rest, hs, hpre⟩ := splitOnChar_head_pre c xs
      simp [splitOnChar, hx, hs] at h
      rcases h with h | h
      · subst h
        exact ((List.prefix_cons_inj x).mpr hpre).isInfix
      · have : seg ∈ splitOnChar c xs := by simp [hs, h]
        exact List.infix_cons (ih this)

/-- Whole `..` segments are substrings, so every path with a `..` segment is
rejected by `isValid`. -/
theorem hasDotDotSegment_isValid (p : String) (h : hasDotDotSegment p = true) :
    isValid p = false := by
  have hmem : ['.', '.'] ∈ splitOnChar '/' p.toList := by
    simpa [hasDotDotSegment] using h
  have hinf : ['.', '.'] <:+: p.toList := mem_splitOnChar_infix _ _ _ hmem
  have : jsIncludes p ".." = true := by
    simpa [jsIncludes] using hinf
  simp [isValid, this]

theorem utf8ReplaceGo_of_strictGo (fuel : Nat) :
    ∀ (l cs : List Nat), utf8StrictGo fuel l = some cs → utf8ReplaceGo fuel l = cs := by
  induction fuel with
  | zero =>
    intro l cs h
    cases l with
    | nil =>
      simp [utf8StrictGo] at h
      simp [utf8ReplaceGo, ← h]
    | cons b rest => simp [utf8StrictGo] at h
  | succ fuel ih =>
    intro l cs h
    cases l with
    | nil =>
      simp [utf8StrictGo] at h
      simp [utf8ReplaceGo, ← h]
    | cons b rest =>
      simp only [utf8StrictGo] at h
      simp only [utf8ReplaceGo]
      cases hdec : utf8DecodeOne (b :: rest) with
      | none => simp [hdec] at h
      | some cr =>
        obtain ⟨c, r⟩ := cr
        simp only [hdec] at h ⊢
        cases hrec : utf8StrictGo fuel r with
        | none => simp [hrec] at h
        | some cs' =>
          simp only [hrec] at h
          simp only [Option.some.injEq] at h
          rw [ih r cs' hrec, ← h]

/-- On input the strict decoder accepts, the lossy decoder returns the same
scalar values. -/
theorem utf8DecodeReplace_of_strict (bytes cs : List Nat)
    (h : utf8DecodeStrict? bytes = some cs) : utf8DecodeReplace bytes = cs :=
  utf8ReplaceGo_of_strictGo bytes.length bytes cs h

/-- Claim C4, counterexample: the path `"a..b"` contains no whole `..`
segment, yet `pathUtils.isValid` returns `false` on it, because the source
tests `path.includes('..')` — a plain substring test — so the claimed
equivalence "`isValid p = false` iff `p` has a `..` segment" fails at
`p = "a..b"`. -/
theorem claim4_counterexample :
    isValid "a..b" = false ∧ hasDotDotSegment "a..b" = false := by
  decide

/-- Claim C4 (amended): `pathUtils.isValid p` returns `false` iff `p`
contains `..` as a substring; consequently every path with a whole `..`
segment is rejected, but so are some paths without one (such as `"a..b"`). -/
theorem claim4_isValid_substring (p : String) :
    (isValid p = false ↔ "..".toList <:+: p.toList) ∧
      (hasDotDotSegment p = true → isValid p = false) := by
  refine ⟨?_, hasDotDotSegment_isValid p⟩
  simp [isValid, jsIncludes]

/-- Witness for claim C4: the segment-containing path `"a/../b"` is
rejected. -/
theorem claim4_witness : hasDotDotSegment "a/../b" = true ∧ isValid "a/../b" = false :=
  ⟨by decide, (claim4_isValid_substring "a/../b").2 (by decide)⟩

/-- Claim C2: when the backend call of a Mirror write operation fails, the
operation rethrows (`err`) with the store exactly as it was — map, counter
and ledger untouched — because the in-memory update happens only after the
backend call succeeds.  For `createFile` the `mkdir` backend call is only
issued when the Node-style dirname of the path is not `"."`, so its failure
matters exactly then; a `writeFile` failure always rethrows. -/
theorem claim2_failed_write_leaves_store (s : FilesStore) (p c : String)
    (content : FileContent) :
    saveFile false s p c = .err s ∧
    (∀ mk, createFile mk false s p content = .err s) ∧
    (nodeDirname p ≠ "." → ∀ wk, createFile false wk s p content = .err s) ∧
    createFolder false s p = .err s ∧
    deleteFile false s p = .err s ∧
    deleteFolder false s p = .err s := by
  refine ⟨?_, ?_, ?_, ?_, ?_, ?_⟩
  · unfold saveFile
    cases alookup s.files p with
    | none => rfl
    | some d => cases d <;> simp
  · intro mk
    unfold createFile
    by_cases h : nodeDirname p ≠ "." ∧ ¬(mk = true)
    · simp [h]
    · simp only [h, if_false]
      cases content <;> simp
  · intro h wk
    unfold createFile
    simp [h]
  · simp [createFolder]
  · simp [deleteFile]
  · simp [deleteFolder]

/-- Witness for claim C2 at a concrete store and path. -/
theorem claim2_witness :
    nodeDirname "/a/b.txt" ≠ "." ∧
      createFile false true ⟨[], 0, [], []⟩ "/a/b.txt" (.text "x") =
        .err ⟨[], 0, [], []⟩ := by
  refine ⟨by decide, ?_⟩
  exact (claim2_failed_write_leaves_store ⟨[], 0, [], []⟩ "/a/b.txt" "" (.text "x")).2.2.1
    (by decide) true

/-- Claim C10: a successful `saveFile` stores a non-binary File Dirent
holding exactly the saved content — `isBinary` is unconditionally `false`,
even when the previous Dirent at the path was binary — whereas `createFile`
with byte content stores the base64 encoding with `isBinary = true`. -/
theorem claim10_save_marks_nonbinary (p : String) :
    (∀ s t c, saveFile true s p c = OpResult.ok t →
        alookup t.files p = some (Dirent.file c false)) ∧
    (∀ mk s t bytes,
        createFile mk true s p (FileContent.binary bytes) = OpResult.ok t →
        alookup t.files p = some (Dirent.file (base64Encode bytes) true)) := by
  constructor
  · intro s t c h
    unfold saveFile at h
    cases hl : alookup s.files p with
    | none => rw [hl] at h; simp at h
    | some d =>
      cases d with
      | folder => rw [hl] at h; simp at h
      | file old bin =>
        rw [hl] at h
        simp only [if_true, OpResult.ok.injEq, if_pos] at h
        rw [← h]
        exact alookup_aset_self _ _ _
  · intro mk s t bytes h
    unfold createFile at h
    by_cases hc : nodeDirname p ≠ "." ∧ ¬(mk = true)
    · simp [hc] at h
    · simp only [hc, if_false, if_true, OpResult.ok.injEq] at h
      rw [← h]
      exact alookup_aset_self _ _ _

/-- Witness for claim C10: saving over a binary Dirent yields a non-binary
Dirent with the saved text. -/
theorem claim10_witness :
    alookup (⟨[("/img", Dirent.file "hello" false)], 1, [("/img", "QUJD")], []⟩ :
        FilesStore).files "/img" = some (Dirent.file "hello" false) ∧
    alookup (⟨[("/img", Dirent.file (base64Encode [65, 66, 67]) true)], 0,
        [("/img", base64Encode [65, 66, 67])], []⟩ : FilesStore).files "/img" =
      some (Dirent.file (base64Encode [65, 66, 67]) true) :=
  ⟨(claim10_save_marks_nonbinary "/img").1
      ⟨[("/img", Dirent.file "QUJD" true)], 1, [], []⟩ _ "hello" (by decide),
    (claim10_save_marks_nonbinary "/img").2 true
      ⟨[], 0, [], []⟩ _ [65, 66, 67] (by decide)⟩

theorem aset_append_of_lookup_none {α : Type} (l : List (String × α)) (k : String)
    (v : α) (h : alookup l k = none) : aset l k v = l ++ [(k, v)] := by
  induction l with
  | nil => simp [aset]
  | cons hd tl ih =>
    obtain ⟨k', v'⟩ := hd
    by_cases hk : k' = k
    · simp [alookup, hk] at h
    · simp [alookup, hk] at h
      simp [aset, hk, ih h]

theorem aremove_lookup_none {α : Type} (l : List (String × α)) (k q : String)
    (h : alookup l q = none) : alookup (aremove l k) q = none := by
  by_cases hk : k = q
  · subst hk
    exact alookup_aremove_self l k
  · rw [alookup_aremove_ne l k q hk]
    exact h

/-- Claim C8: after a successful `saveFile p newContent` over a file holding
`oldContent`, with the ledger not yet holding `p` (first save since the last
reset/load, so the save seeds the ledger with `oldContent`), and
`newContent ≠ oldContent`, `getModifiedFiles` includes `p` with the new
content, and after `resetFileModifications` the next `getModifiedFiles` no
longer includes anything. -/
theorem claim8_modified_files (s t : FilesStore) (p oldC newC : String) (bin : Bool)
    (hfile : alookup s.files p = some (.file oldC bin))
    (hledger : alookup s.modifiedFiles p = none)
    (hne : newC ≠ oldC)
    (hsave : saveFile true s p newC = .ok t) :
    (∃ l, getModifiedFiles t = some l ∧ (p, Dirent.file newC false) ∈ l) ∧
      getModifiedFiles (resetFileModifications t) = none := by
  unfold saveFile at hsave
  rw [hfile] at hsave
  simp only [hledger, Option.isSome_none, Bool.false_eq_true, if_false, if_true,
    OpResult.ok.injEq] at hsave
  constructor
  · unfold getModifiedFiles
    rw [← hsave]
    simp only
    rw [aset_append_of_lookup_none s.modifiedFiles p oldC hledger]
    have hlook : alookup (aset s.files p (Dirent.file newC false)) p =
        some (Dirent.file newC false) := alookup_aset_self _ _ _
    have hmem : (p, Dirent.file newC false) ∈
        (s.modifiedFiles ++ [(p, oldC)]).filterMap fun e =>
          match alookup (aset s.files p (Dirent.file newC false)) e.1 with
          | some (.file c b) => if c = e.2 then none else some (e.1, Dirent.file c b)
          | _ => none := by
      rw [List.mem_filterMap]
      refine ⟨(p, oldC), by simp, ?_⟩
      simp only [hlook]
      simp [hne]
    have hne' := List.ne_nil_of_mem hmem
    have hempty := List.isEmpty_eq_false_iff_exists_mem.mpr ⟨_, hmem⟩
    refine ⟨_, ?_, hmem⟩
    rw [hempty]
    rfl
  · simp [getModifiedFiles, resetFileModifications]

/-- Witness for claim C8 at a concrete store. -/
theorem claim8_witness :
    (∃ l, getModifiedFiles
        (⟨[("/a", Dirent.file "y" false)], 1, [("/a", "x")], []⟩ : FilesStore) =
          some l ∧ ("/a", Dirent.file "y" false) ∈ l) ∧
      getModifiedFiles (resetFileModifications
        (⟨[("/a", Dirent.file "y" false)], 1, [("/a", "x")], []⟩ : FilesStore)) = none :=
  claim8_modified_files ⟨[("/a", Dirent.file "x" false)], 1, [], []⟩ _ "/a" "x" "y"
    false (by decide) (by decide) (by decide) (by decide)

/-- Claim C7 fails on the code: text-mode `readFile` of a file holding the
invalid UTF-8 byte `0xFF` succeeds with a replacement-character string —
`readFileContent` uses `file.text()`, a lossy decode — instead of failing
with an error as the claim states. -/
theorem claim7_counterexample :
    OPFSService.readFile (ONode.dir [("b", ONode.file [255])]) "b" false =
        .ok (.text (codepointsToString [65533])) ∧
      utf8DecodeStrict? [255] = none :=
  ⟨rfl, rfl⟩

/-- Claim C7 (amended): text-mode `readFile` of an existing file never fails
on malformed bytes — it returns the lossy, replacement-character UTF-8
decode of the stored bytes; on files whose bytes are valid UTF-8 this is
exactly the decoded text. -/
theorem claim7_text_read_lossy (root : ONode) (p : String) (data : List Nat)
    (hres : getFileHandle root p = .ok data) :
    OPFSService.readFile root p false =
        .ok (.text (codepointsToString (utf8DecodeReplace data))) ∧
      (∀ cs, utf8DecodeStrict? data = some cs →
        OPFSService.readFile root p false = .ok (.text (codepointsToString cs))) := by
  constructor
  · unfold OPFSService.readFile
    rw [hres]
    rfl
  · intro cs hcs
    unfold OPFSService.readFile
    rw [hres]
    simp [utf8DecodeReplace_of_strict data cs hcs]

/-- Witness for claim C7: reading a valid-UTF-8 file returns its decoded
text. -/
theorem claim7_witness :
    OPFSService.readFile (ONode.dir [("t", ONode.file [104, 105])]) "t" false =
      .ok (.text (codepointsToString [104, 105])) :=
  (claim7_text_read_lossy (ONode.dir [("t", ONode.file [104, 105])]) "t"
    [104, 105] rfl).2 [104, 105] rfl

theorem removeAt_nonempty_dir (segs : List String) :
    ∀ (root : ONode) (es : List (String × ONode)) (name : String)
      (child : List (String × ONode)),
      resolveDir root segs = .ok (.dir es) →
      alookup es name = some (.dir child) → child ≠ [] →
      removeAt root segs name false = .error .InvalidModificationError := by
  induction segs with
  | nil =>
    intro root es name child hres hlook hne
    cases root with
    | file _ => simp [resolveDir] at hres
    | dir es0 =>
      simp only [resolveDir, Except.ok.injEq, ONode.dir.injEq] at hres
      subst hres
      simp only [removeAt, removeEntry, hlook]
      have : child.isEmpty = false := by simp [List.isEmpty_iff, hne]
      simp [this]
  | cons seg rest ih =>
    intro root es name child hres hlook hne
    cases root with
    | file _ => simp [resolveDir] at hres
    | dir es0 =>
      simp only [resolveDir] at hres
      cases hl : alookup es0 seg with
      | none => rw [hl] at hres; simp at hres
      | some c =>
        cases c with
        | file _ => rw [hl] at hres; simp at hres
        | dir es1 =>
          rw [hl] at hres
          simp only [removeAt, hl]
          rw [ih (.dir es1) es name child hres hlook hne]

/-- Claim C6 fails on the code: deleting a non-empty directory without
`recursive` does fail and removes nothing, but the failure is the generic
`FILESYSTEM_ERROR` catch-all, not a `DIRECTORY_NOT_EMPTY`-class distinct
error: the platform's `InvalidModificationError` has no case in
`handleFileSystemError`'s switch (and `FileSystemError.directoryNotEmpty` is
never thrown). -/
theorem claim6_counterexample :
    errCodeOf (OPFSService.deleteDirectory
        (ONode.dir [("d", ONode.dir [("f", ONode.file [104])])]) "d" false) =
        some .FILESYSTEM_ERROR ∧
      ErrCode.FILESYSTEM_ERROR ≠ ErrCode.DIRECTORY_NOT_EMPTY :=
  ⟨rfl, by decide⟩

/-- Claim C6 (amended): for every non-root path resolving to a non-empty
directory, `deleteDirectory` without `recursive` fails — the error result
means `removeEntry` modified nothing — but the typed error carries the
generic `FILESYSTEM_ERROR` catch-all code (wrapping the platform's
`InvalidModificationError`), not a `DIRECTORY_NOT_EMPTY`-class code. -/
theorem claim6_nonempty_delete_catchall (root : ONode) (p : String)
    (es child : List (String × ONode))
    (hroot : pisRoot p = false)
    (hres : resolveDir root (psplit (pdirname p)) = .ok (.dir es))
    (hlook : alookup es (pbasename p) = some (.dir child))
    (hne : child ≠ []) :
    OPFSService.deleteDirectory root p false =
      .error ⟨.FILESYSTEM_ERROR, some p⟩ := by
  unfold OPFSService.deleteDirectory
  rw [hroot]
  simp only [Bool.false_eq_true, if_false]
  have hrm := removeAt_nonempty_dir (psplit (pdirname p)) root es (pbasename p)
    child hres hlook hne
  unfold getDirectoryHandle
  by_cases hr : pisRoot (pdirname p) = true
  · have hsplit : psplit (pdirname p) = [] := by
      have : normalize (pdirname p) = "" := by
        simpa [pisRoot] using hr
      simp [psplit, this]
    rw [hsplit] at hres hrm
    simp only [resolveDir, Except.ok.injEq] at hres
    simp [hr, hsplit, hrm, handleDomError]
  · have hr' : pisRoot (pdirname p) = false := by
      simpa using hr
    rw [hr']
    simp only [Bool.false_eq_true, if_false]
    rw [hres]
    simp [hrm, handleDomError]

/-- Witness for claim C6 at a concrete two-level tree. -/
theorem claim6_witness :
    OPFSService.deleteDirectory
        (ONode.dir [("d", ONode.dir [("f", ONode.file [104])])]) "d" false =
      .error ⟨.FILESYSTEM_ERROR, some "d"⟩ :=
  claim6_nonempty_delete_catchall
    (ONode.dir [("d", ONode.dir [("f", ONode.file [104])])]) "d"
    [("d", ONode.dir [("f", ONode.file [104])])] [("f", ONode.file [104])]
    rfl rfl rfl (by simp)

/-- Claim C5 fails on the code: a successful `createFile` does not increment
the file counter — the increment happens only when the watcher's `add_file`
echo of the create is processed — so after one successful `createFile` from
an empty Mirror the counter is 0 while the map holds one file Dirent,
refuting "counter equals the number of file-typed Dirents". -/
theorem claim5_counterexample :
    createFile true true ⟨[], 0, [], []⟩ "/a.txt" (.text "x") =
        .ok ⟨[("/a.txt", Dirent.file "x" false)], 0, [("/a.txt", "x")], []⟩ ∧
      countFiles [("/a.txt", Dirent.file "x" false)] = 1 ∧
      (0 : Int) ≠ 1 := by
  refine ⟨by decide, by decide, by decide⟩

/-- Claim C5 (amended): `createFile` leaves the counter unchanged whether it
succeeds or fails (the increment is performed only when the watcher's
non-tombstoned `add_file` echo is processed, which adds exactly one);
`deleteFile` decrements the counter by one exactly on success, after the
backend call, and leaves everything unchanged on failure. -/
theorem claim5_counter_adjustments (fsType : FileSystemType) (s : FilesStore)
    (p : String) (content : FileContent) (e : WatchEvent) :
    (∀ mk wk, (createFile mk wk s p content).state.size = s.size) ∧
    (∀ t, deleteFile true s p = .ok t → t.size = s.size - 1) ∧
    deleteFile false s p = .err s ∧
    (e.type = .add_file → ¬(e.path = "") →
      scontains s.deletedPaths (sanitizePath e.path) = false →
      s.deletedPaths.any (fun d => (sanitizePath e.path).startsWith (d ++ "/")) = false →
      (processOne fsType s e).size = s.size + 1) := by
  refine ⟨?_, ?_, ?_, ?_⟩
  · intro mk wk
    unfold createFile
    by_cases h : nodeDirname p ≠ "." ∧ ¬(mk = true)
    · simp [h, OpResult.state]
    · simp only [h, if_false]
      cases content <;> cases wk <;> simp [OpResult.state]
  · intro t h
    simp only [deleteFile, if_true, OpResult.ok.injEq] at h
    rw [← h]
  · simp [deleteFile]
  · intro htype hpath hcont hany
    unfold processOne
    rw [if_neg hpath]
    simp [hcont, hany, htype]

/-- Witness for claim C5: a fresh `add_file` event adds one to the counter,
and a successful delete subtracts one. -/
theorem claim5_witness :
    (processOne .WEB_CONTAINER ⟨[], 0, [], []⟩
        ⟨.add_file, "/n.txt", some [104]⟩).size = (0 : Int) + 1 ∧
      (⟨[], -1, [], ["/x"]⟩ : FilesStore).size = (0 : Int) - 1 :=
  ⟨(claim5_counter_adjustments .WEB_CONTAINER ⟨[], 0, [], []⟩ "/x" (.text "")
        ⟨.add_file, "/n.txt", some [104]⟩).2.2.2 rfl (by decide) (by decide)
      (by decide),
    (claim5_counter_adjustments .WEB_CONTAINER ⟨[], 0, [], []⟩ "/x" (.text "")
        ⟨.add_file, "/n.txt", some [104]⟩).2.1 ⟨[], -1, [], ["/x"]⟩ (by decide)⟩

/-- Claim C3 states the spec's intent but the code has a slip: the
`remove_dir` descendant loop iterates `Object.entries(this.files)` — the
nanostores store object's own properties — instead of the file map
`this.files.get()` (which the analogous loops in `#cleanupDeletedFiles` and
`deleteFolder` correctly use), so no descendant Dirent is cleared: after
`remove_dir` of `/home/project/a`, the folder key itself is cleared but the
nested file Dirent is still present. -/
theorem claim3_remove_dir_leaves_descendants :
    processOne .WEB_CONTAINER
        ⟨[("/home/project/a", .folder),
          ("/home/project/a/b.txt", Dirent.file "x" false)], 1, [], []⟩
        ⟨.remove_dir, "/home/project/a", none⟩ =
        ⟨[("/home/project/a/b.txt", Dirent.file "x" false)], 1, [], []⟩ ∧
      alookup [("/home/project/a/b.txt", Dirent.file "x" false)]
          "/home/project/a/b.txt" = some (Dirent.file "x" false) := by
  refine ⟨by decide, by decide⟩

theorem scontains_sadd_self (l : List String) (x : String) :
    scontains (sadd l x) x = true := by
  unfold scontains sadd
  by_cases h : l.contains x = true
  · have hm : x ∈ l := List.mem_of_elem_eq_true h
    simp [h, hm]
  · simp only [h, if_false]
    exact List.elem_eq_true_of_mem (by simp)

theorem cleanupInnerStep_preserves_none (d : String) (a : FilesStore)
    (e : String × Dirent) (q : String) (h : alookup a.files q = none) :
    alookup (cleanupInnerStep d a e).files q = none := by
  unfold cleanupInnerStep
  by_cases hc : e.1.startsWith (d ++ "/") = true
  · simp only [hc, if_true]
    exact aremove_lookup_none _ _ _ h
  · simp only [hc, if_false]
    exact h

theorem cleanupInner_preserves_none (d : String)
    (snap : List (String × Dirent)) :
    ∀ (acc : FilesStore) (q : String), alookup acc.files q = none →
      alookup (cleanupInner d snap acc).files q = none := by
  induction snap with
  | nil =>
    intro acc q h
    simpa [cleanupInner] using h
  | cons e rest ih =>
    intro acc q h
    simp only [cleanupInner, List.foldl_cons]
    have := ih (cleanupInnerStep d acc e) q
      (cleanupInnerStep_preserves_none d acc e q h)
    simpa [cleanupInner] using this

theorem cleanupStep_preserves_none (snap : List (String × Dirent))
    (acc : FilesStore) (d q : String) (h : alookup acc.files q = none) :
    alookup (cleanupStep snap acc d).files q = none := by
  unfold cleanupStep
  cases hl : alookup snap d with
  | none =>
    simp only [hl]
    exact cleanupInner_preserves_none d snap acc q h
  | some de =>
    simp only [hl]
    exact cleanupInner_preserves_none d snap _ q (aremove_lookup_none _ _ _ h)

theorem cleanupStep_tombstone_none (snap : List (String × Dirent))
    (acc : FilesStore) (p : String)
    (h : alookup snap p = none → alookup acc.files p = none) :
    alookup (cleanupStep snap acc p).files p = none := by
  unfold cleanupStep
  cases hl : alookup snap p with
  | none =>
    simp only [hl]
    exact cleanupInner_preserves_none p snap acc p (h hl)
  | some de =>
    simp only [hl]
    exact cleanupInner_preserves_none p snap _ p (alookup_aremove_self _ _)

theorem foldl_cleanupStep_preserves_none (snap : List (String × Dirent)) :
    ∀ (ds : List String) (acc : FilesStore) (q : String),
      alookup acc.files q = none →
      alookup (ds.foldl (cleanupStep snap) acc).files q = none := by
  intro ds
  induction ds with
  | nil =>
    intro acc q h
    simpa using h
  | cons d rest ih =>
    intro acc q h
    rw [List.foldl_cons]
    exact ih _ q (cleanupStep_preserves_none snap acc d q h)

theorem foldl_cleanupStep_tombstone (snap : List (String × Dirent)) :
    ∀ (ds : List String) (acc : FilesStore) (p : String), p ∈ ds →
      (alookup snap p = none → alookup acc.files p = none) →
      alookup (ds.foldl (cleanupStep snap) acc).files p = none := by
  intro ds
  induction ds with
  | nil =>
    intro acc p hmem
    exact absurd hmem (List.not_mem_nil p)
  | cons d rest ih =>
    intro acc p hmem hinv
    rw [List.foldl_cons]
    by_cases hpd : p = d
    · subst hpd
      exact foldl_cleanupStep_preserves_none snap rest _ p
        (cleanupStep_tombstone_none snap acc p hinv)
    · have hmem' : p ∈ rest := by
        cases hmem with
        | head => exact absurd rfl hpd
        | tail _ h => exact h
      exact ih _ p hmem' fun hs => cleanupStep_preserves_none snap acc d p (hinv hs)

/-- Claim C1 fails on the code in its "until the deleted-path entry is
cleared by a subsequent createFile/createFolder" part: nothing ever removes
a deleted-path entry.  After `createFile('/a/b.txt','x')`,
`deleteFile('/a/b.txt')` and a second successful `createFile` at the same
path, the path is still tombstoned, and a later backend `change` event
carrying new content `"y"` is still discarded — whereas the claim's clearing
clause would let it through. -/
theorem claim1_counterexample :
    createFile true true ⟨[], 0, [], []⟩ "/a/b.txt" (.text "x") =
        .ok ⟨[("/a/b.txt", Dirent.file "x" false)], 0, [("/a/b.txt", "x")], []⟩ ∧
      deleteFile true
          ⟨[("/a/b.txt", Dirent.file "x" false)], 0, [("/a/b.txt", "x")], []⟩
          "/a/b.txt" = .ok ⟨[], -1, [], ["/a/b.txt"]⟩ ∧
      createFile true true ⟨[], -1, [], ["/a/b.txt"]⟩ "/a/b.txt" (.text "x") =
        .ok ⟨[("/a/b.txt", Dirent.file "x" false)], -1, [("/a/b.txt", "x")],
          ["/a/b.txt"]⟩ ∧
      scontains ["/a/b.txt"] "/a/b.txt" = true ∧
      processOne .WEB_CONTAINER
          ⟨[("/a/b.txt", Dirent.file "x" false)], -1, [("/a/b.txt", "x")],
            ["/a/b.txt"]⟩
          ⟨.change, "/a/b.txt", some [121]⟩ =
        ⟨[("/a/b.txt", Dirent.file "x" false)], -1, [("/a/b.txt", "x")],
          ["/a/b.txt"]⟩ := by
  refine ⟨by decide, by decide, by decide, by decide, by decide⟩

/-- Claim C1 (amended): a watch event whose trailing-slash-stripped path
equals, or lies strictly under, a tombstoned path is discarded with the
whole store unchanged; the deleted-path set is never cleared —
`createFile` and `createFolder` leave it untouched — so the suppression is
permanent for the session and across reconstruction: after `createFile` then
`deleteFile` of a path the path is tombstoned and absent, and the
reconstruction-time cleanup pass removes every tombstoned path from a
freshly populated map, so a stale event never re-creates the Dirent. -/
theorem claim1_tombstone_suppression (fsType : FileSystemType) (s : FilesStore)
    (e : WatchEvent) (p : String) :
    (scontains s.deletedPaths (sanitizePath e.path) = true →
        processOne fsType s e = s) ∧
    (s.deletedPaths.any (fun d => (sanitizePath e.path).startsWith (d ++ "/")) =
        true → processOne fsType s e = s) ∧
    (∀ mk wk content,
        (createFile mk wk s p content).state.deletedPaths = s.deletedPaths) ∧
    (∀ bk, (createFolder bk s p).state.deletedPaths = s.deletedPaths) ∧
    (∀ s1 s2, createFile true true s p (.text "x") = .ok s1 →
        deleteFile true s1 p = .ok s2 →
        alookup s2.files p = none ∧ scontains s2.deletedPaths p = true) ∧
    (scontains s.deletedPaths p = true →
        alookup (cleanupDeletedFiles s).files p = none) := by
  refine ⟨?_, ?_, ?_, ?_, ?_, ?_⟩
  · intro h
    unfold processOne
    by_cases hp : e.path = ""
    · simp [hp]
    · simp [hp, h]
  · intro h
    unfold processOne
    by_cases hp : e.path = ""
    · simp [hp]
    · by_cases hc : scontains s.deletedPaths (sanitizePath e.path) = true
      · simp [hp, hc]
      · simp [hp, hc, h]
  · intro mk wk content
    unfold createFile
    by_cases hd : nodeDirname p ≠ "." ∧ ¬(mk = true)
    · simp [hd, OpResult.state]
    · simp only [hd, if_false]
      cases content <;> cases wk <;> simp [OpResult.state]
  · intro bk
    cases bk <;> simp [createFolder, OpResult.state]
  · intro s1 s2 h1 h2
    have hcond : ¬(nodeDirname p ≠ "." ∧ ¬(true = true)) := by simp
    unfold createFile at h1
    rw [if_neg hcond] at h1
    simp only [if_true, OpResult.ok.injEq] at h1
    simp only [deleteFile, if_true, OpResult.ok.injEq] at h2
    rw [← h2]
    exact ⟨alookup_aremove_self _ _, scontains_sadd_self _ _⟩
  · intro h
    unfold cleanupDeletedFiles
    by_cases hE : s.deletedPaths.isEmpty = true
    · rw [List.isEmpty_iff] at hE
      rw [hE] at h
      simp [scontains] at h
    · simp only [hE, if_false]
      refine foldl_cleanupStep_tombstone s.files s.deletedPaths s p ?_ fun hs => hs
      exact List.mem_of_elem_eq_true h

/-- Witness for claim C1: a tombstoned `add_file` event is discarded, and the
cleanup pass removes the tombstoned path from a freshly populated map. -/
theorem claim1_witness :
    processOne .WEB_CONTAINER ⟨[], 0, [], ["/t"]⟩ ⟨.add_file, "/t", some [104]⟩ =
        ⟨[], 0, [], ["/t"]⟩ ∧
      alookup (cleanupDeletedFiles
          ⟨[("/t", Dirent.file "x" false)], 1, [], ["/t"]⟩).files "/t" = none :=
  ⟨(claim1_tombstone_suppression .WEB_CONTAINER ⟨[], 0, [], ["/t"]⟩
        ⟨.add_file, "/t", some [104]⟩ "/t").1 (by decide),
    (claim1_tombstone_suppression .WEB_CONTAINER
        ⟨[("/t", Dirent.file "x" false)], 1, [], ["/t"]⟩
        ⟨.add_file, "/t", some [104]⟩ "/t").2.2.2.2.2 (by decide)⟩

theorem writeKeys_cons_mkdir (segs : List String) (rest : List SyncAct) :
    writeKeys (SyncAct.mkdir segs :: rest) = writeKeys rest := by
  simp [writeKeys]

theorem writeKeys_cons_write (segs : List String) (c : String)
    (rest : List SyncAct) :
    writeKeys (SyncAct.write segs c :: rest) = segsKey segs :: writeKeys rest := by
  simp [writeKeys]

theorem mkdirRecGo_preserves_dir (k : String) :
    ∀ (qs : List (List String)) (S S' : List (String × SNode)),
      alookup S k = some SNode.dir → mkdirRecGo S qs = .ok S' →
      alookup S' k = some SNode.dir := by
  intro qs
  induction qs with
  | nil =>
    intro S S' h hrun
    simp only [mkdirRecGo, Except.ok.injEq] at hrun
    rw [← hrun]
    exact h
  | cons q rest ih =>
    intro S S' h hrun
    simp only [mkdirRecGo] at hrun
    cases hl : alookup S (segsKey q) with
    | none =>
      rw [hl] at hrun
      have hne : segsKey q ≠ k := by
        intro he
        rw [he, h] at hl
        exact Option.noConfusion hl
      refine ih _ S' ?_ hrun
      rw [alookup_aset_ne _ _ _ _ hne]
      exact h
    | some node =>
      cases node with
      | dir =>
        rw [hl] at hrun
        exact ih S S' h hrun
      | file c =>
        rw [hl] at hrun
        simp at hrun

theorem mkdirRecGo_preserves_file (k c : String) :
    ∀ (qs : List (List String)) (S S' : List (String × SNode)),
      alookup S k = some (SNode.file c) → mkdirRecGo S qs = .ok S' →
      alookup S' k = some (SNode.file c) := by
  intro qs
  induction qs with
  | nil =>
    intro S S' h hrun
    simp only [mkdirRecGo, Except.ok.injEq] at hrun
    rw [← hrun]
    exact h
  | cons q rest ih =>
    intro S S' h hrun
    simp only [mkdirRecGo] at hrun
    cases hl : alookup S (segsKey q) with
    | none =>
      rw [hl] at hrun
      have hne : segsKey q ≠ k := by
        intro he
        rw [he, h] at hl
        exact Option.noConfusion hl
      refine ih _ S' ?_ hrun
      rw [alookup_aset_ne _ _ _ _ hne]
      exact h
    | some node =>
      cases node with
      | dir =>
        rw [hl] at hrun
        exact ih S S' h hrun
      | file c' =>
        rw [hl] at hrun
        simp at hrun

theorem mkdirRecGo_establishes (qs : List (List String)) :
    ∀ (S S' : List (String × SNode)), mkdirRecGo S qs = .ok S' →
      ∀ q ∈ qs, alookup S' (segsKey q) = some SNode.dir := by
  induction qs with
  | nil =>
    intro S S' _ q hq
    exact absurd hq (List.not_mem_nil q)
  | cons q0 rest ih =>
    intro S S' h q hq
    simp only [mkdirRecGo] at h
    cases hl : alookup S (segsKey q0) with
    | none =>
      rw [hl] at h
      cases hq with
      | head =>
        exact mkdirRecGo_preserves_dir (segsKey q0) rest _ S'
          (alookup_aset_self _ _ _) h
      | tail _ hq' => exact ih _ S' h q hq'
    | some node =>
      cases node with
      | dir =>
        rw [hl] at h
        cases hq with
        | head => exact mkdirRecGo_preserves_dir (segsKey q0) rest S S' hl h
        | tail _ hq' => exact ih S S' h q hq'
      | file c =>
        rw [hl] at h
        simp at h

theorem mkdirRecGo_fixpoint (qs : List (List String)) :
    ∀ (S : List (String × SNode)),
      (∀ q ∈ qs, alookup S (segsKey q) = some SNode.dir) →
      mkdirRecGo S qs = .ok S := by
  induction qs with
  | nil => intro S _; rfl
  | cons q0 rest ih =>
    intro S h
    have h0 : alookup S (segsKey q0) = some SNode.dir := h q0 (List.mem_cons_self q0 rest)
    simp only [mkdirRecGo, h0]
    exact ih S fun q hq => h q (List.mem_cons_of_mem q0 hq)

theorem sandboxWrite_ok (S S' : List (String × SNode)) (t : List String)
    (c : String) (h : sandboxWrite S t c = .ok S') :
    S' = aset S (segsKey t) (.file c) ∧
      alookup S (segsKey t) ≠ some SNode.dir ∧
      (t.dropLast = [] ∨ alookup S (segsKey t.dropLast) = some SNode.dir) := by
  unfold sandboxWrite at h
  by_cases hg : t.dropLast ≠ [] ∧ ¬(alookup S (segsKey t.dropLast) = some SNode.dir)
  · rw [if_pos hg] at h
    simp at h
  · rw [if_neg hg] at h
    have hpar : t.dropLast = [] ∨ alookup S (segsKey t.dropLast) = some SNode.dir := by
      rcases not_and_or.mp hg with h1 | h2
      · exact Or.inl (by simpa using h1)
      · exact Or.inr (not_not.mp h2)
    cases hl : alookup S (segsKey t) with
    | none =>
      rw [hl] at h
      simp only [Except.ok.injEq] at h
      exact ⟨h.symm, by simp [hl], hpar⟩
    | some node =>
      cases node with
      | dir =>
        rw [hl] at h
        simp at h
      | file d =>
        rw [hl] at h
        simp only [Except.ok.injEq] at h
        exact ⟨h.symm, by simp [hl], hpar⟩

theorem sandboxWrite_fixpoint (S : List (String × SNode)) (t : List String)
    (c : String) (hfile : alookup S (segsKey t) = some (.file c))
    (hpar : t.dropLast = [] ∨ alookup S (segsKey t.dropLast) = some SNode.dir) :
    sandboxWrite S t c = .ok S := by
  unfold sandboxWrite
  have hg : ¬(t.dropLast ≠ [] ∧ ¬(alookup S (segsKey t.dropLast) = some SNode.dir)) := by
    rcases hpar with h | h
    · intro hc; exact hc.1 h
    · intro hc; exact hc.2 h
  rw [if_neg hg, hfile]
  simp [aset_of_lookup_eq S (segsKey t) (SNode.file c) hfile]

theorem runActs_preserves_dir (k : String) :
    ∀ (acts : List SyncAct) (S S' : List (String × SNode)),
      alookup S k = some SNode.dir → runActs S acts = .ok S' →
      alookup S' k = some SNode.dir := by
  intro acts
  induction acts with
  | nil =>
    intro S S' h hrun
    simp only [runActs, Except.ok.injEq] at hrun
    rw [← hrun]
    exact h
  | cons a rest ih =>
    intro S S' h hrun
    simp only [runActs] at hrun
    cases hstep : runAct S a with
    | error e =>
      rw [hstep] at hrun
      simp at hrun
    | ok S1 =>
      rw [hstep] at hrun
      refine ih S1 S' ?_ hrun
      cases a with
      | mkdir segs =>
        exact mkdirRecGo_preserves_dir k (ancestors segs) S S1 h
          (by simpa [runAct, mkdirRec] using hstep)
      | write t c =>
        obtain ⟨hS1, hnd, _⟩ := sandboxWrite_ok S S1 t c
          (by simpa [runAct] using hstep)
        rw [hS1]
        have hne : segsKey t ≠ k := fun he => hnd (by rw [he]; exact h)
        rw [alookup_aset_ne _ _ _ _ hne]
        exact h

theorem runActs_preserves_file (k c : String) :
    ∀ (acts : List SyncAct) (S S' : List (String × SNode)),
      alookup S k = some (SNode.file c) → k ∉ writeKeys acts →
      runActs S acts = .ok S' → alookup S' k = some (SNode.file c) := by
  intro acts
  induction acts with
  | nil =>
    intro S S' h _ hrun
    simp only [runActs, Except.ok.injEq] at hrun
    rw [← hrun]
    exact h
  | cons a rest ih =>
    intro S S' h hk hrun
    simp only [runActs] at hrun
    cases hstep : runAct S a with
    | error e =>
      rw [hstep] at hrun
      simp at hrun
    | ok S1 =>
      rw [hstep] at hrun
      cases a with
      | mkdir segs =>
        rw [writeKeys_cons_mkdir] at hk
        refine ih S1 S' ?_ hk hrun
        exact mkdirRecGo_preserves_file k c (ancestors segs) S S1 h
          (by simpa [runAct, mkdirRec] using hstep)
      | write t c' =>
        rw [writeKeys_cons_write] at hk
        have hkt : k ≠ segsKey t := fun he => hk (by rw [he]; exact List.mem_cons_self _ _)
        have hk' : k ∉ writeKeys rest := fun hm => hk (List.mem_cons_of_mem _ hm)
        obtain ⟨hS1, _, _⟩ := sandboxWrite_ok S S1 t c'
          (by simpa [runAct] using hstep)
        refine ih S1 S' ?_ hk' hrun
        rw [hS1, alookup_aset_ne _ _ _ _ (Ne.symm hkt)]
        exact h

theorem runActs_replay :
    ∀ (acts : List SyncAct) (S S' : List (String × SNode)),
      (writeKeys acts).Nodup → runActs S acts = .ok S' →
      runActs S' acts = .ok S' := by
  intro acts
  induction acts with
  | nil =>
    intro S S' _ h
    simp only [runActs, Except.ok.injEq] at h
    rw [← h]
    rfl
  | cons a rest ih =>
    intro S S' hnd hrun
    simp only [runActs] at hrun
    cases hstep : runAct S a with
    | error e =>
      rw [hstep] at hrun
      simp at hrun
    | ok S1 =>
      rw [hstep] at hrun
      cases a with
      | mkdir segs =>
        have hnd' : (writeKeys rest).Nodup := by
          rwa [writeKeys_cons_mkdir] at hnd
        have hdirs : ∀ q ∈ ancestors segs, alookup S' (segsKey q) = some SNode.dir := by
          intro q hq
          have h1 : alookup S1 (segsKey q) = some SNode.dir :=
            mkdirRecGo_establishes (ancestors segs) S S1
              (by simpa [runAct, mkdirRec] using hstep) q hq
          exact runActs_preserves_dir (segsKey q) rest S1 S' h1 hrun
        have hfix : runAct S' (.mkdir segs) = .ok S' := by
          simp only [runAct, mkdirRec]
          exact mkdirRecGo_fixpoint (ancestors segs) S' hdirs
        simp only [runActs, hfix]
        exact ih S1 S' hnd' hrun
      | write t c =>
        have hnd0 := List.nodup_cons.mp (by rwa [writeKeys_cons_write] at hnd)
        obtain ⟨hS1, hndir, hpar⟩ := sandboxWrite_ok S S1 t c
          (by simpa [runAct] using hstep)
        have hfile1 : alookup S1 (segsKey t) = some (SNode.file c) := by
          rw [hS1]
          exact alookup_aset_self _ _ _
        have hfileS' : alookup S' (segsKey t) = some (SNode.file c) :=
          runActs_preserves_file (segsKey t) c rest S1 S' hfile1 hnd0.1 hrun
        have hparS' : t.dropLast = [] ∨
            alookup S' (segsKey t.dropLast) = some SNode.dir := by
          rcases hpar with h | h
          · exact Or.inl h
          · refine Or.inr ?_
            have hne : segsKey t ≠ segsKey t.dropLast := by
              intro he
              rw [← he] at h
              exact hndir h
            have h1 : alookup S1 (segsKey t.dropLast) = some SNode.dir := by
              rw [hS1, alookup_aset_ne _ _ _ _ hne]
              exact h
            exact runActs_preserves_dir _ rest S1 S' h1 hrun
        have hfix : runAct S' (.write t c) = .ok S' := by
          simp only [runAct]
          exact sandboxWrite_fixpoint S' t c hfileS' hparS'
        simp only [runActs, hfix]
        exact ih S1 S' hnd0.2 hrun

/-- Claim C9: a `syncOPFS` tick is idempotent: when one tick against a fixed
persistent listing succeeds, re-running the identical tick from the
resulting sandbox state succeeds and leaves the sandbox state exactly as it
was (so the observable content is identical).  The hypothesis — distinct
listed files resolve to distinct sandbox targets — holds for any listing
produced from a real tree, whose entry paths are distinct. -/
theorem claim9_sync_idempotent (listing : List FileInfo)
    (readF : String → String) (S0 S1 : List (String × SNode))
    (hnodup : (writeKeys (syncActions listing readF)).Nodup)
    (h : syncOPFS listing readF S0 = .ok S1) :
    syncOPFS listing readF S1 = .ok S1 :=
  runActs_replay (syncActions listing readF) S0 S1 hnodup h

/-- Witness for claim C9: a two-entry listing synced into an empty sandbox,
then re-synced, reproduces the same state. -/
theorem claim9_witness :
    syncOPFS [⟨"src", .directory⟩, ⟨"src/i.js", .file⟩] (fun _ => "h")
        [("project", SNode.dir), ("project/src", SNode.dir),
          ("project/src/i.js", SNode.file "h")] =
      .ok [("project", SNode.dir), ("project/src", SNode.dir),
            ("project/src/i.js", SNode.file "h")] :=
  claim9_sync_idempotent [⟨"src", .directory⟩, ⟨"src/i.js", .file⟩]
    (fun _ => "h") [] _ (by decide) rfl

end Spec2Proof
